import Mathlib

/-!
Verification development for the SBOM scanner service.

This file gives a shallow embedding, in Lean, of the core of the repository:

* `go_compare.py` — the dependency-set loaders (`load_dependency_tree`,
  `load_sbom`) and the reconciliation engine (`compare`);
* `app.py` — the job registry endpoints (`scan_repo`, `get_report`,
  `delete_job`) and the `WorkDir` current-directory context manager used by
  `run_scan_pipeline`.

Python dictionaries are modelled as association lists in insertion order
(`dlookup` is key probing, `dinsert` is `d[k] = v` with CPython semantics:
an existing key keeps its position and gets the new value, a new key is
appended).  File I/O is modelled by passing file contents / parsed contents
explicitly.  `json.loads` is modelled by an executable fuel-based JSON
parser over the character list of the input.
-/

/-! ## Association-list model of Python dict -/

/-- Key probe of a Python dict (`k in d`, `d[k]`, `d.get(k)`). -/
def dlookup {α : Type} : List (String × α) → String → Option α
  | [], _ => none
  | (k', v) :: rest, k => if k' = k then some v else dlookup rest k

/-- CPython `d[k] = v`: an existing key keeps its position and is given the
new value; a fresh key is appended at the end.  (Keys are unique in a dict,
so replacing the first occurrence in place is exactly the CPython update.) -/
def dinsert {α : Type} : List (String × α) → String → α → List (String × α)
  | [], k, v => [(k, v)]
  | (k', v') :: rest, k, v =>
      if k' = k then (k, v) :: rest else (k', v') :: dinsert rest k v

/-- Removal of a key (`d.pop(k, None)` / deleting the durable directory). -/
def dremove {α : Type} : List (String × α) → String → List (String × α)
  | [], _ => []
  | (k', v) :: rest, k =>
      if k' = k then dremove rest k else (k', v) :: dremove rest k

/-! ## Reconciliation engine (`go_compare.compare`) -/

/-- Format of `missing_in_sbom` / `same` / `extra_in_sbom` entries:
`f"{name}@{ver}"`. -/
def fmtDep (name ver : String) : String := name ++ "@" ++ ver

/-- Format of `version_mismatch` entries:
`f"{name} (deptree: {ver}, sbom: {sbom_ver})"`. -/
def fmtMismatch (name ver sbomVer : String) : String :=
  name ++ " (deptree: " ++ ver ++ ", sbom: " ++ sbomVer ++ ")"

/-- A normalized dependency mapping (a Python dict name → version,
kept in insertion order). -/
abbrev DepMap := List (String × String)

/-- First pass of `compare`: iterate the deptree mapping, probe the SBOM
mapping, and classify each entry as missing / mismatched / same
(`go_compare.py` lines 71–79).  Returns
`(missing_in_sbom, version_mismatch, same)`. -/
def comparePassA (sbom_deps : DepMap) :
    DepMap → List String × List String × List String
  | [] => ([], [], [])
  | (name, ver) :: rest =>
    let r := comparePassA sbom_deps rest
    match dlookup sbom_deps name with
    | none => (fmtDep name ver :: r.1, r.2.1, r.2.2)
    | some sbom_ver =>
      if sbom_ver ≠ ver then (r.1, fmtMismatch name ver sbom_ver :: r.2.1, r.2.2)
      else (r.1, r.2.1, fmtDep name ver :: r.2.2)

/-- Second pass of `compare`: iterate the SBOM mapping, probe the deptree
mapping, collect `extra_in_sbom` (`go_compare.py` lines 81–83). -/
def comparePassB (deptree_deps : DepMap) : DepMap → List String
  | [] => []
  | (name, ver) :: rest =>
    let r := comparePassB deptree_deps rest
    match dlookup deptree_deps name with
    | none => fmtDep name ver :: r
    | some _ => r

/-- Result quadruple of `compare`. -/
structure CompareResult where
  missing_in_sbom : List String
  version_mismatch : List String
  same : List String
  extra_in_sbom : List String
deriving DecidableEq

/-- `go_compare.compare(deptree_deps, sbom_deps)`. -/
def compare (deptree_deps sbom_deps : DepMap) : CompareResult :=
  ⟨(comparePassA sbom_deps deptree_deps).1,
   (comparePassA sbom_deps deptree_deps).2.1,
   (comparePassA sbom_deps deptree_deps).2.2,
   comparePassB deptree_deps sbom_deps⟩

/-- Exactly one of three propositions holds. -/
def ExactlyOne3 (p q r : Prop) : Prop :=
  (p ∨ q ∨ r) ∧ ¬(p ∧ q) ∧ ¬(p ∧ r) ∧ ¬(q ∧ r)

/-- Concrete resolver-tree mapping (spec §8, Scenario A shape). -/
def depsTreeA : DepMap := [("pkgA", "1.0"), ("pkgB", "2.0")]

/-- Concrete SBOM mapping (spec §8, Scenario A shape). -/
def depsSbomA : DepMap := [("pkgA", "1.0"), ("pkgC", "3.0")]

/-! ## JSON values and an executable model of `json.loads` -/

/-- Parsed JSON values.  Numeric literals are kept as their lexeme: the
loaders only ever traverse strings, arrays and objects. -/
inductive Json where
  | null
  | bool (b : Bool)
  | num (lit : String)
  | str (s : String)
  | arr (items : List Json)
  | obj (members : List (String × Json))

/-- The opening-brace character. -/
def lbraceChar : Char := Char.ofNat 123

/-- The closing-brace character. -/
def rbraceChar : Char := Char.ofNat 125

/-- Whitespace as stripped by both Python `str.strip()` and the JSON
grammar (space, tab, newline, carriage return). -/
def isWsChar (c : Char) : Bool :=
  c = ' ' || c = '\t' || c = '\n' || c = '\r'

/-- Drop leading whitespace. -/
def skipWs : List Char → List Char
  | [] => []
  | c :: cs => if isWsChar c then skipWs cs else c :: cs

/-- Python `str.strip()`: drop whitespace from both ends. -/
def pyStrip (cs : List Char) : List Char :=
  ((cs.dropWhile isWsChar).reverse.dropWhile isWsChar).reverse

/-- Single-character JSON string escapes. -/
def escChar (c : Char) : Option Char :=
  if c = '"' || c = '\\' || c = '/' then some c
  else if c = 'b' then some (Char.ofNat 8)
  else if c = 'f' then some (Char.ofNat 12)
  else if c = 'n' then some '\n'
  else if c = 'r' then some '\r'
  else if c = 't' then some '\t'
  else none

/-- Value of one hexadecimal digit. -/
def hexVal (c : Char) : Option Nat :=
  if '0' ≤ c ∧ c ≤ '9' then some (c.toNat - 48)
  else if 'a' ≤ c ∧ c ≤ 'f' then some (c.toNat - 87)
  else if 'A' ≤ c ∧ c ≤ 'F' then some (c.toNat - 55)
  else none

/-- Body of a JSON string, after the opening quote: returns the decoded
characters and the remainder after the closing quote. -/
def parseStrBody : List Char → Option (List Char × List Char)
  | [] => none
  | c :: cs =>
    if c = '"' then some ([], cs)
    else if c = '\\' then
      match cs with
      | [] => none
      | e :: cs2 =>
        if e = 'u' then
          match cs2 with
          | a :: b :: c3 :: d :: cs3 =>
            match hexVal a, hexVal b, hexVal c3, hexVal d with
            | some ha, some hb, some hc, some hd =>
              match parseStrBody cs3 with
              | some (out, rest) =>
                some (Char.ofNat (((ha * 16 + hb) * 16 + hc) * 16 + hd) :: out,
                      rest)
              | none => none
            | _, _, _, _ => none
          | _ => none
        else
          match escChar e with
          | some ec =>
            match parseStrBody cs2 with
            | some (out, rest) => some (ec :: out, rest)
            | none => none
          | none => none
    else
      match parseStrBody cs with
      | some (out, rest) => some (c :: out, rest)
      | none => none

/-- Decimal digit test. -/
def isDigitChar (c : Char) : Bool := '0' ≤ c && c ≤ '9'

/-- Take a maximal run of digits. -/
def takeDigits : List Char → List Char × List Char
  | [] => ([], [])
  | c :: cs =>
    if isDigitChar c then
      let r := takeDigits cs
      (c :: r.1, r.2)
    else ([], c :: cs)

/-- Integer part of a JSON number (a lone `0`, or a nonzero digit followed
by digits). -/
def parseIntPart : List Char → Option (List Char × List Char)
  | [] => none
  | c :: cs =>
    if c = '0' then some (['0'], cs)
    else if isDigitChar c then
      let r := takeDigits cs
      some (c :: r.1, r.2)
    else none

/-- Optional fractional part of a JSON number. -/
def parseFracPart (cs : List Char) : Option (List Char × List Char) :=
  match cs with
  | '.' :: c :: rest =>
    if isDigitChar c then
      let r := takeDigits rest
      some ('.' :: c :: r.1, r.2)
    else none
  | _ => some ([], cs)

/-- Optional exponent part of a JSON number. -/
def parseExpPart (cs : List Char) : Option (List Char × List Char) :=
  match cs with
  | e :: rest =>
    if e = 'e' || e = 'E' then
      match rest with
      | s :: rest2 =>
        if s = '+' || s = '-' then
          match rest2 with
          | d :: rest3 =>
            if isDigitChar d then
              let r := takeDigits rest3
              some (e :: s :: d :: r.1, r.2)
            else none
          | [] => none
        else if isDigitChar s then
          let r := takeDigits rest2
          some (e :: s :: r.1, r.2)
        else none
      | [] => none
    else some ([], e :: rest)
  | [] => some ([], [])

/-- A JSON numeric literal, kept as its lexeme. -/
def parseNumber (cs : List Char) : Option (Json × List Char) :=
  let p : List Char × List Char :=
    match cs with
    | '-' :: rest => (['-'], rest)
    | _ => ([], cs)
  match parseIntPart p.2 with
  | none => none
  | some (ip, cs2) =>
    match parseFracPart cs2 with
    | none => none
    | some (fp, cs3) =>
      match parseExpPart cs3 with
      | none => none
      | some (ep, cs4) => some (.num (String.mk (p.1 ++ ip ++ fp ++ ep)), cs4)

/-- Consume an expected literal tail (`rue`, `alse`, `ull`). -/
def stripLit : List Char → List Char → Option (List Char)
  | [], cs => some cs
  | p :: ps, c :: cs => if c = p then stripLit ps cs else none
  | _ :: _, [] => none

mutual

/-- One JSON value (leading whitespace allowed), fuel-bounded. -/
def parseVal : Nat → List Char → Option (Json × List Char)
  | 0, _ => none
  | fuel + 1, cs =>
    match skipWs cs with
    | [] => none
    | c :: rest =>
      if c = '"' then
        match parseStrBody rest with
        | some (out, r) => some (.str (String.mk out), r)
        | none => none
      else if c = lbraceChar then
        match skipWs rest with
        | c2 :: rest2 =>
          if c2 = rbraceChar then some (.obj [], rest2)
          else
            match parseMembers fuel (c2 :: rest2) with
            | some (ms, r) => some (.obj ms, r)
            | none => none
        | [] => none
      else if c = '[' then
        match skipWs rest with
        | c2 :: rest2 =>
          if c2 = ']' then some (.arr [], rest2)
          else
            match parseItems fuel (c2 :: rest2) with
            | some (xs, r) => some (.arr xs, r)
            | none => none
        | [] => none
      else if c = 't' then
        match stripLit ['r', 'u', 'e'] rest with
        | some r => some (.bool true, r)
        | none => none
      else if c = 'f' then
        match stripLit ['a', 'l', 's', 'e'] rest with
        | some r => some (.bool false, r)
        | none => none
      else if c = 'n' then
        match stripLit ['u', 'l', 'l'] rest with
        | some r => some (.null, r)
        | none => none
      else parseNumber (c :: rest)

/-- Nonempty comma-separated array items, up to the closing bracket. -/
def parseItems : Nat → List Char → Option (List Json × List Char)
  | 0, _ => none
  | fuel + 1, cs =>
    match parseVal fuel cs with
    | none => none
    | some (v, r) =>
      match skipWs r with
      | c :: rest =>
        if c = ']' then some ([v], rest)
        else if c = ',' then
          match parseItems fuel rest with
          | some (vs, r2) => some (v :: vs, r2)
          | none => none
        else none
      | [] => none

/-- Nonempty comma-separated object members, up to the closing brace. -/
def parseMembers : Nat → List Char → Option (List (String × Json) × List Char)
  | 0, _ => none
  | fuel + 1, cs =>
    match skipWs cs with
    | c :: rest =>
      if c = '"' then
        match parseStrBody rest with
        | none => none
        | some (keyChars, r1) =>
          match skipWs r1 with
          | c2 :: r2 =>
            if c2 = ':' then
              match parseVal fuel r2 with
              | none => none
              | some (v, r3) =>
                match skipWs r3 with
                | c3 :: r4 =>
                  if c3 = rbraceChar then some ([(String.mk keyChars, v)], r4)
                  else if c3 = ',' then
                    match parseMembers fuel r4 with
                    | some (ms, r5) => some ((String.mk keyChars, v) :: ms, r5)
                    | none => none
                  else none
                | [] => none
            else none
          | [] => none
      else none
    | [] => none

end

/-- `json.loads` on the character list of the input: parse one value and
require only whitespace after it.  The fuel `2 * length + 2` dominates the
recursion depth of any successful parse, since at least one character is
consumed per two fuel units along every recursion path. -/
def jsonLoads (cs : List Char) : Option Json :=
  match parseVal (2 * cs.length + 2) cs with
  | some (j, rest) => if skipWs rest = [] then some j else none
  | none => none

/-! ## Dependency-set loaders (`go_compare.load_dependency_tree`,
`go_compare.load_sbom`) -/

/-- The distinct failure modes of the loaders.  `emptyInput` is the
"file is empty" `ValueError`; `noJsonObject`, `invalidJson` and
`unexpectedFormat` are the three `MalformedInput`-style `ValueError`s; a
`typeCrash` models an uncaught `TypeError`/`AttributeError` (input shapes
the Python code would crash on rather than report). -/
inductive LoadError where
  | emptyInput
  | noJsonObject
  | invalidJson
  | unexpectedFormat
  | typeCrash
deriving DecidableEq

/-- The `MalformedInput` errors, as distinct from `EmptyInput`. -/
def LoadError.isMalformed : LoadError → Bool
  | .noJsonObject => true
  | .invalidJson => true
  | .unexpectedFormat => true
  | _ => false

/-- `content[content.index("\x7b"):]` guarded by `"\x7b" in content`: keep
the input from the first opening brace on; `none` when there is none. -/
def dropUntilBrace : List Char → Option (List Char)
  | [] => none
  | c :: cs => if c = lbraceChar then some (c :: cs) else dropUntilBrace cs

/-- Python `s.rsplit("@", 1)` under the guard `"@" in s`: split at the last
occurrence of `'@'`.  (Without an `'@'` the Python unpacking would raise;
all callers guard first, so that case is unreachable and returns `(s, "")`.) -/
def rsplitAt (s : String) : String × String :=
  match s.data.reverse.span (fun c => c != '@') with
  | (after, _ :: before) => (String.mk before.reverse, String.mk after.reverse)
  | (after, []) => (String.mk after.reverse, "")

/-- `"@" in s`. -/
def hasAtChar (s : String) : Bool := s.data.contains '@'

/-- Lookup in a parsed JSON object, `d.get(k)`:  duplicate keys resolve to
the last occurrence, exactly as `json.loads` builds a Python dict. -/
def jsonGet (members : List (String × Json)) (k : String) : Option Json :=
  dlookup members.reverse k

/-- A Python `for` loop threading a dict through a per-element step that
may raise: stop at the first error. -/
def foldExcept {α β : Type} (f : β → α → Except LoadError β) :
    β → List α → Except LoadError β
  | d, [] => .ok d
  | d, c :: rest =>
    match f d c with
    | .error e => .error e
    | .ok d' => foldExcept f d' rest

/-- The `name` part of one package-loop iteration
(`go_compare.py` lines 28–31): `if name and "@" in name: deps[lib] = version`.
A missing, `null` or `False` name is falsy and skipped; a truthy non-string
name is modelled as a crash (Python would raise on `rsplit`). -/
def nameStep (deps : DepMap) (kvs : List (String × Json)) :
    Except LoadError DepMap :=
  match jsonGet kvs "name" with
  | none => .ok deps
  | some .null => .ok deps
  | some (.bool false) => .ok deps
  | some (.str s) =>
      if s.data ≠ [] ∧ hasAtChar s then
        .ok (dinsert deps (rsplitAt s).1 (rsplitAt s).2)
      else .ok deps
  | some _ => .error .typeCrash

/-- One child of a package (`go_compare.py` lines 34–37):
`if "@" in child: deps[lib] = version`.  A non-string child is modelled as
a crash. -/
def childStep (d : DepMap) (c : Json) : Except LoadError DepMap :=
  match c with
  | .str s =>
      if hasAtChar s then .ok (dinsert d (rsplitAt s).1 (rsplitAt s).2)
      else .ok d
  | _ => .error .typeCrash

/-- One iteration of `for pkg in data["packages"]`
(`go_compare.py` lines 26–37). -/
def processPkg (deps : DepMap) (pkg : Json) : Except LoadError DepMap :=
  match pkg with
  | .obj kvs =>
    match nameStep deps kvs with
    | .error e => .error e
    | .ok deps1 =>
      match jsonGet kvs "children" with
      | none => .ok deps1
      | some (.arr cs) => foldExcept childStep deps1 cs
      | some _ => .error .typeCrash
  | _ => .error .typeCrash

/-- The post-parse part of `load_dependency_tree`
(`go_compare.py` lines 21–39): demand the `{'packages': [...]}` shape and
fold every package into the resulting dict. -/
def treeDepsOfJson (data : Json) : Except LoadError DepMap :=
  match data with
  | .obj kvs =>
    match jsonGet kvs "packages" with
    | none => .error .unexpectedFormat
    | some (.arr pkgs) => foldExcept processPkg [] pkgs
    | some _ => .error .typeCrash
  | _ => .error .unexpectedFormat

/-- The top-level `packages` value, when the document is an object carrying
that key (`not isinstance(data, dict) or "packages" not in data`). -/
def packagesKey (j : Json) : Option Json :=
  match j with
  | .obj kvs => jsonGet kvs "packages"
  | _ => none

/-- `go_compare.load_dependency_tree` on the contents of the input file:
strip, reject empty input, keep from the first brace, `json.loads`, then
extract the packages. -/
def load_dependency_tree (content0 : String) : Except LoadError DepMap :=
  if pyStrip content0.data = [] then .error .emptyInput
  else
    match dropUntilBrace (pyStrip content0.data) with
    | none => .error .noJsonObject
    | some cs =>
      match jsonLoads cs with
      | none => .error .invalidJson
      | some data => treeDepsOfJson data

/-- One iteration of `for comp in components` (`go_compare.py` lines 57–61):
`if name and version: deps[name] = version`, skipping entries whose name or
version is missing, `null`, `False` or empty.  Truthy non-string values are
modelled as a crash (a string-keyed mapping cannot represent them; no SBOM
produced by the pipeline contains any). -/
def sbomAddComp (deps : DepMap) (comp : Json) : Except LoadError DepMap :=
  match comp with
  | .obj kvs =>
    match jsonGet kvs "name" with
    | none => .ok deps
    | some .null => .ok deps
    | some (.bool false) => .ok deps
    | some (.str n) =>
      if n.data = [] then .ok deps
      else
        match jsonGet kvs "version" with
        | none => .ok deps
        | some .null => .ok deps
        | some (.bool false) => .ok deps
        | some (.str v) =>
            if v.data = [] then .ok deps else .ok (dinsert deps n v)
        | some _ => .error .typeCrash
    | some _ => .error .typeCrash
  | _ => .error .typeCrash

/-- `go_compare.load_sbom` on the contents of the input file. -/
def load_sbom (content0 : String) : Except LoadError DepMap :=
  if pyStrip content0.data = [] then .error .emptyInput
  else
    match jsonLoads (pyStrip content0.data) with
    | none => .error .invalidJson
    | some data =>
      match data with
      | .obj kvs =>
        match jsonGet kvs "components" with
        | none => .ok []
        | some (.arr comps) => foldExcept sbomAddComp [] comps
        | some _ => .error .typeCrash
      | _ => .error .typeCrash

/-- The pair a well-formed child contributes (`rsplit` of a string child
containing `'@'`). -/
def childPair (c : Json) : Option (String × String) :=
  match c with
  | .str s => if hasAtChar s then some (rsplitAt s) else none
  | _ => none

/-- The `name@version` pairs one package node and its children contribute,
in loop order. -/
def pkgPairs (pkg : Json) : List (String × String) :=
  match pkg with
  | .obj kvs =>
    (match jsonGet kvs "name" with
     | some (.str s) =>
         if s.data ≠ [] ∧ hasAtChar s then [rsplitAt s] else []
     | _ => []) ++
    (match jsonGet kvs "children" with
     | some (.arr cs) => cs.filterMap childPair
     | _ => [])
  | _ => []

/-- All pairs contributed by a tree document, in loop order. -/
def nodePairs (data : Json) : List (String × String) :=
  match data with
  | .obj kvs =>
    match jsonGet kvs "packages" with
    | some (.arr pkgs) => pkgs.flatMap pkgPairs
    | _ => []
  | _ => []

/-- Fold a pair list into a dict, in order (`deps[lib] = version`). -/
def foldInsert (m : DepMap) (ps : List (String × String)) : DepMap :=
  ps.foldl (fun d p => dinsert d p.1 p.2) m

/-- A package node of the tree document format: an object whose `name` is a
`name@version` identifier and whose `children`, if present, is a list of
string identifiers each containing `'@'`. -/
def WellFormedPkg (pkg : Json) : Prop :=
  ∃ kvs, pkg = .obj kvs
    ∧ (∃ s : String, jsonGet kvs "name" = some (.str s) ∧
        s.data ≠ [] ∧ hasAtChar s = true)
    ∧ (jsonGet kvs "children" = none ∨
        ∃ cs, jsonGet kvs "children" = some (.arr cs) ∧
          ∀ c ∈ cs, ∃ s : String, c = .str s ∧ hasAtChar s = true)

/-- A tree document: an object with a `packages` list of well-formed
package nodes. -/
def WellFormedTree (data : Json) : Prop :=
  ∃ kvs pkgs, data = .obj kvs
    ∧ jsonGet kvs "packages" = some (.arr pkgs)
    ∧ ∀ p ∈ pkgs, WellFormedPkg p

/-- Scenario C input: log noise followed by an empty packages object. -/
def logNoiseTree : String := "INFO: starting\n\x7b\"packages\":[]\x7d"

/-- A concrete well-formed tree document with a duplicated package name. -/
def treeDocA : Json :=
  .obj [("packages", .arr [
    .obj [("name", .str "pkgA@1.0"),
          ("children", .arr [.str "pkgB@2.0", .str "pkgA@1.1"])]])]



/-! ## Job registry (`app.py`) -/

/-- Job status values written by the service. -/
inductive JobStatus where
  | pending
  | running
  | completed
  | failed
deriving DecidableEq

/-- One `JOBS[job_id]` record (`app.py` lines 294–300). -/
structure JobRecord where
  status : JobStatus
  started_at : Option String
  finished_at : Option String
  error : Option String
  report_path : Option String
deriving DecidableEq

/-- The in-memory `JOBS` table. -/
abbrev Registry := List (String × JobRecord)

/-- Durable artifacts of one job directory `jobs/<id>`: the parsed
`report.json` when that file exists, and the text of `error.txt` when that
file exists.  (`report.json` is written by the service itself via
`json.dumps`, so it is modelled already parsed.) -/
structure DiskEntry where
  report : Option Json
  errorTxt : Option String

/-- The durable `jobs/` directory, keyed by job id. -/
abbrev Disk := List (String × DiskEntry)

/-- A job directory with neither file. -/
def DiskEntry.empty : DiskEntry := ⟨none, none⟩

/-- Errors surfaced synchronously as `HTTPException`s (409 / 404 / 400). -/
inductive ApiError where
  | conflict
  | notFound
  | invalidState
deriving DecidableEq

/-- The status strings of the `ScanStatus` response model. -/
def statusStr : JobStatus → String
  | .pending => "pending"
  | .running => "running"
  | .completed => "completed"
  | .failed => "failed"

/-- The `ScanStatus` response model (`app.py` lines 50–58). -/
structure ScanStatusView where
  id : String
  status : String
  language : Option String
  dependency_manager : Option String
  started_at : Option String
  finished_at : Option String
  error : Option String
  report : Option Json

/-- `report.get("artifacts", dict())` on a report document. -/
def jsonGetObj (j : Json) (k : String) : Json :=
  match j with
  | .obj kvs => (jsonGet kvs k).getD (.obj [])
  | _ => .obj []

/-- `d.get(k)` when the caller expects an optional string. -/
def jsonGetStr (j : Json) (k : String) : Option String :=
  match j with
  | .obj kvs =>
    match jsonGet kvs k with
    | some (.str s) => some s
    | _ => none
  | _ => none

/-- `artifacts.get("language")` of a report document. -/
def reportLanguage (rep : Json) : Option String :=
  jsonGetStr (jsonGetObj rep "artifacts") "language"

/-- `artifacts.get("dependency_manager")` of a report document. -/
def reportManager (rep : Json) : Option String :=
  jsonGetStr (jsonGetObj rep "artifacts") "dependency_manager"

/-- The fresh record installed by `scan_repo` (`app.py` lines 294–300). -/
def freshJobRecord : JobRecord := ⟨.pending, none, none, none, none⟩

/-- `POST /api/scan_repo` (`app.py` lines 283–305): reject an id whose
record is pending or running with 409, otherwise overwrite the record with
a fresh pending one (the background task is only scheduled, so the response
is built before it runs).  Returns the registry after the call and the
response. -/
def scan_repo (jobs : Registry) (job_id : String) :
    Registry × Except ApiError ScanStatusView :=
  match dlookup jobs job_id with
  | some r =>
    if r.status = .pending ∨ r.status = .running then
      (jobs, .error .conflict)
    else
      (dinsert jobs job_id freshJobRecord,
       .ok ⟨job_id, "pending", none, none, none, none, none, none⟩)
  | none =>
      (dinsert jobs job_id freshJobRecord,
       .ok ⟨job_id, "pending", none, none, none, none, none, none⟩)

/-- `GET /api/getReport` (`app.py` lines 308–354).  When the id is absent
from the registry: a persisted `report.json` means `completed`, else a
persisted `error.txt` means `failed`, else 404.  When the id is in the
registry, the view is built from the record; the persisted report is loaded
when `report_path` is set and the file exists (the path always points into
the job's own directory). -/
def get_report (jobs : Registry) (disk : Disk) (job_id : String) :
    Except ApiError ScanStatusView :=
  match dlookup jobs job_id with
  | none =>
    let entry := (dlookup disk job_id).getD DiskEntry.empty
    match entry.report with
    | some rep =>
        .ok ⟨job_id, "completed", reportLanguage rep, reportManager rep,
             none, none, none, some rep⟩
    | none =>
      match entry.errorTxt with
      | some e =>
          .ok ⟨job_id, "failed", none, none, none, none, some e, none⟩
      | none => .error .notFound
  | some record =>
    let rep : Option Json :=
      match record.report_path with
      | some _ => ((dlookup disk job_id).getD DiskEntry.empty).report
      | none => none
    .ok ⟨job_id, statusStr record.status,
         rep.bind fun r => reportLanguage r,
         rep.bind fun r => reportManager r,
         record.started_at, record.finished_at, record.error, rep⟩

/-- `DELETE /api/job/...` (`app.py` lines 358–369): refuse with 400 while
the record is running or pending; otherwise drop the in-memory record (if
any) and remove the whole job directory (if it exists). -/
def delete_job (jobs : Registry) (disk : Disk) (job_id : String) :
    Registry × Disk × Except ApiError Bool :=
  match dlookup jobs job_id with
  | some r =>
    if r.status = .running ∨ r.status = .pending then
      (jobs, disk, .error .invalidState)
    else
      (dremove jobs job_id, dremove disk job_id, .ok true)
  | none => (jobs, dremove disk job_id, .ok true)

/-- A running record, for concrete instances. -/
def runningRec : JobRecord :=
  ⟨.running, some "2026-01-01T00:00:00+00:00", none, none, none⟩

/-- A completed record, for concrete instances. -/
def doneRec : JobRecord :=
  ⟨.completed, some "2026-01-01T00:00:00+00:00",
   some "2026-01-01T00:05:00+00:00", none,
   some "/srv/app/jobs/j2/report.json"⟩

/-- A concrete report document, as `run_scan_pipeline` persists it. -/
def repDoc : Json :=
  .obj [("repo", .str "https://example.org/r.git"),
        ("artifacts", .obj [("language", .str "Go"),
                            ("dependency_manager", .str "go.mod")])]

/-! ## Working-directory discipline (`app.WorkDir`, `run_scan_pipeline`) -/

/-- Process-wide mutable state: the current working directory. -/
structure Proc where
  cwd : String
deriving DecidableEq

/-- A mutation of, or read from, the process-wide current directory. -/
inductive CwdEvent where
  | chdir (path : String)
  | getcwd
deriving DecidableEq

/-- `os.chdir(p)`. -/
def os_chdir (p : String) (_s : Proc) : Proc := ⟨p⟩

/-- `os.getcwd()`. -/
def os_getcwd (s : Proc) : String := s.cwd

/-- The `WorkDir` context manager (`app.py` lines 62–75): `__init__`
records `Path.cwd()` as `_prev`, `__enter__` calls `os.chdir(self.path)`,
`__exit__` calls `os.chdir(self._prev)`. -/
structure WorkDir where
  path : String
  prev : String

/-- `WorkDir.__init__`. -/
def WorkDir.init (path : String) (s : Proc) : WorkDir := ⟨path, os_getcwd s⟩

/-- `WorkDir.__enter__`. -/
def WorkDir.enter (w : WorkDir) (s : Proc) : Proc := os_chdir w.path s

/-- `WorkDir.__exit__`. -/
def WorkDir.exitCtx (w : WorkDir) (s : Proc) : Proc := os_chdir w.prev s

/-- What one pipeline run does to the process cwd. -/
structure PipelineCwdView where
  events : List CwdEvent
  stageCwd : String
  goCurrentFolder : Option String
  finalCwd : String
deriving DecidableEq

/-- The process-current-directory behaviour of `run_scan_pipeline`
(`app.py` lines 90–258), with the process cwd as explicit state: the whole
stage sequence runs inside `with WorkDir(job_dir)` (line 104), and the Go
flow reads `os.getcwd()` (line 199) to derive the folder its stage outputs
are written to.  `events` is the sequence of cwd syscalls, `stageCwd` the
process cwd in effect while the stages execute, `goCurrentFolder` the value
of `current_folder` in the Go flow, `finalCwd` the cwd after the context
exits. -/
def run_scan_pipeline_cwd (language : String) (s0 : Proc) (job_dir : String) :
    PipelineCwdView :=
  let w := WorkDir.init job_dir s0
  let s1 := w.enter s0
  let goCF : Option String :=
    if language = "Go" then some (os_getcwd s1) else none
  let s2 := w.exitCtx s1
  ⟨CwdEvent.chdir job_dir ::
     ((if language = "Go" then [CwdEvent.getcwd] else [])
       ++ [CwdEvent.chdir w.prev]),
   s1.cwd, goCF, s2.cwd⟩


/-! ## Helper lemmas -/

theorem dlookup_append {α : Type} (xs ys : List (String × α)) (k : String) :
    dlookup (xs ++ ys) k =
      match dlookup xs k with
      | some v => some v
      | none => dlookup ys k := by
  induction xs with
  | nil => simp [dlookup]
  | cons p rest ih =>
    by_cases h : p.1 = k <;> simp [dlookup, h, ih]

theorem dlookup_dinsert {α : Type} (m : List (String × α)) (k' k : String)
    (v : α) :
    dlookup (dinsert m k' v) k = if k' = k then some v else dlookup m k := by
  induction m with
  | nil => by_cases hk : k' = k <;> simp [dinsert, dlookup, hk]
  | cons p rest ih =>
    obtain ⟨k1, v1⟩ := p
    by_cases h1 : k1 = k'
    · subst h1
      by_cases hk : k1 = k <;> simp [dinsert, dlookup, hk]
    · by_cases hk : k1 = k
      · subst hk
        have : k' ≠ k1 := fun hc => h1 hc.symm
        simp [dinsert, dlookup, h1, this]
      · simp [dinsert, dlookup, h1, hk, ih]

theorem dlookup_dremove_self {α : Type} (m : List (String × α)) (k : String) :
    dlookup (dremove m k) k = none := by
  induction m with
  | nil => simp [dremove, dlookup]
  | cons p rest ih =>
    obtain ⟨k1, v1⟩ := p
    by_cases h : k1 = k <;> simp [dremove, dlookup, h, ih]

theorem dlookup_isSome_of_mem {α : Type} {m : List (String × α)} {k : String}
    {v : α} (h : (k, v) ∈ m) : (dlookup m k).isSome := by
  induction m with
  | nil => cases h
  | cons p rest ih =>
    obtain ⟨k1, v1⟩ := p
    rcases List.mem_cons.mp h with h1 | h1
    · obtain ⟨hk, hv⟩ := Prod.mk.injEq .. ▸ h1
      simp [dlookup, hk.symm]
    · by_cases hk : k1 = k <;> simp [dlookup, hk, ih h1]

theorem dlookup_mem {α : Type} {m : List (String × α)} {k : String} {v : α}
    (h : dlookup m k = some v) : (k, v) ∈ m := by
  induction m with
  | nil => simp [dlookup] at h
  | cons p rest ih =>
    obtain ⟨k1, v1⟩ := p
    by_cases hk : k1 = k
    · simp [dlookup, hk] at h
      simp [hk, h]
    · simp [dlookup, hk] at h
      exact List.mem_cons_of_mem _ (ih h)

theorem dlookup_eq_some_of_mem_nodup {α : Type} {m : List (String × α)}
    {k : String} {v : α} (hnd : (m.map Prod.fst).Nodup) (h : (k, v) ∈ m) :
    dlookup m k = some v := by
  induction m with
  | nil => cases h
  | cons p rest ih =>
    obtain ⟨k1, v1⟩ := p
    simp only [List.map_cons, List.nodup_cons] at hnd
    rcases List.mem_cons.mp h with h1 | h1
    · obtain ⟨hk, hv⟩ := Prod.mk.injEq .. ▸ h1
      simp [dlookup, hk.symm, hv]
    · have hne : k1 ≠ k := by
        intro hcon
        exact hnd.1 (by simpa [hcon] using List.mem_map_of_mem Prod.fst h1)
      simp [dlookup, hne, ih hnd.2 h1]

theorem passA_length (B : DepMap) : ∀ l : DepMap,
    (comparePassA B l).1.length + (comparePassA B l).2.1.length
      + (comparePassA B l).2.2.length = l.length := by
  intro l
  induction l with
  | nil => simp [comparePassA]
  | cons p rest ih =>
    obtain ⟨name, ver⟩ := p
    cases hd : dlookup B name with
    | none => simp [comparePassA, hd]; omega
    | some sv =>
      by_cases hsv : sv = ver <;> simp [comparePassA, hd, hsv] <;> omega

theorem passB_length (A : DepMap) : ∀ l : DepMap,
    (comparePassB A l).length
      = (l.filter fun p => (dlookup A p.1).isNone).length := by
  intro l
  induction l with
  | nil => simp [comparePassB]
  | cons p rest ih =>
    obtain ⟨name, ver⟩ := p
    cases hd : dlookup A name with
    | none => simp [comparePassB, List.filter, hd, ih]
    | some av => simp [comparePassB, List.filter, hd, ih]

theorem passA_fst_eq_passB (B : DepMap) : ∀ l : DepMap,
    (comparePassA B l).1 = comparePassB B l := by
  intro l
  induction l with
  | nil => simp [comparePassA, comparePassB]
  | cons p rest ih =>
    obtain ⟨name, ver⟩ := p
    cases hd : dlookup B name with
    | none => simp [comparePassA, comparePassB, hd, ih]
    | some sv =>
      by_cases hsv : sv = ver <;> simp [comparePassA, comparePassB, hd, hsv, ih]

theorem passA_mem_missing {B : DepMap} : ∀ {l : DepMap} {n v : String},
    (n, v) ∈ l → dlookup B n = none → fmtDep n v ∈ (comparePassA B l).1 := by
  intro l
  induction l with
  | nil => intro n v h; cases h
  | cons p rest ih =>
    obtain ⟨k1, v1⟩ := p
    intro n v hmem hB
    rcases List.mem_cons.mp hmem with h1 | h1
    · obtain ⟨hk, hv⟩ := Prod.mk.injEq .. ▸ h1
      subst hk; subst hv
      simp [comparePassA, hB]
    · have hrec := ih h1 hB
      cases hd : dlookup B k1 with
      | none => simp only [comparePassA, hd]; exact List.mem_cons_of_mem _ hrec
      | some sv => by_cases hsv : sv = v1 <;> simp [comparePassA, hd, hsv] <;> exact hrec

theorem passA_mem_mismatch {B : DepMap} : ∀ {l : DepMap} {n v sv : String},
    (n, v) ∈ l → dlookup B n = some sv → sv ≠ v →
    fmtMismatch n v sv ∈ (comparePassA B l).2.1 := by
  intro l
  induction l with
  | nil => intro n v sv h; cases h
  | cons p rest ih =>
    obtain ⟨k1, v1⟩ := p
    intro n v sv hmem hB hne
    rcases List.mem_cons.mp hmem with h1 | h1
    · obtain ⟨hk, hv⟩ := Prod.mk.injEq .. ▸ h1
      subst hk; subst hv
      simp [comparePassA, hB, hne]
    · have hrec := ih h1 hB hne
      cases hd : dlookup B k1 with
      | none => simp only [comparePassA, hd]; exact hrec
      | some sv' =>
        by_cases hsv : sv' = v1
        · simp [comparePassA, hd, hsv]; exact hrec
        · simp only [comparePassA, hd, if_pos (by simpa using hsv)]
          exact List.mem_cons_of_mem _ hrec

theorem passA_mem_same {B : DepMap} : ∀ {l : DepMap} {n v : String},
    (n, v) ∈ l → dlookup B n = some v → fmtDep n v ∈ (comparePassA B l).2.2 := by
  intro l
  induction l with
  | nil => intro n v h; cases h
  | cons p rest ih =>
    obtain ⟨k1, v1⟩ := p
    intro n v hmem hB
    rcases List.mem_cons.mp hmem with h1 | h1
    · obtain ⟨hk, hv⟩ := Prod.mk.injEq .. ▸ h1
      subst hk; subst hv
      simp [comparePassA, hB]
    · have hrec := ih h1 hB
      cases hd : dlookup B k1 with
      | none => simp only [comparePassA, hd]; exact hrec
      | some sv' =>
        by_cases hsv : sv' = v1
        · simp only [comparePassA, hd, hsv, ite_not, if_pos rfl]
          exact List.mem_cons_of_mem _ hrec
        · simp only [comparePassA, hd, if_pos (by simpa using hsv)]
          exact hrec

theorem passB_mem_extra {A : DepMap} : ∀ {l : DepMap} {n v : String},
    (n, v) ∈ l → dlookup A n = none → fmtDep n v ∈ comparePassB A l := by
  intro l
  induction l with
  | nil => intro n v h; cases h
  | cons p rest ih =>
    obtain ⟨k1, v1⟩ := p
    intro n v hmem hA
    rcases List.mem_cons.mp hmem with h1 | h1
    · obtain ⟨hk, hv⟩ := Prod.mk.injEq .. ▸ h1
      subst hk; subst hv
      simp [comparePassB, hA]
    · have hrec := ih h1 hA
      cases hd : dlookup A k1 with
      | none => simp only [comparePassB, hd]; exact List.mem_cons_of_mem _ hrec
      | some _ => simp only [comparePassB, hd]; exact hrec

/-- C1.  `compare(A, B)` classifies every name of the resolver-tree mapping
`A` into exactly one of `missing_in_sbom` / `version_mismatch` / `same`, and
every name of the SBOM mapping `B` into exactly one of `extra_in_sbom` /
`version_mismatch` / `same`; the length equations show that no entry is
dropped or counted twice. -/
theorem compare_partition (A B : DepMap)
    (hA : (A.map Prod.fst).Nodup) (hB : (B.map Prod.fst).Nodup) :
    ((compare A B).missing_in_sbom.length + (compare A B).version_mismatch.length
        + (compare A B).same.length = A.length)
  ∧ ((compare A B).extra_in_sbom.length
        = (B.filter fun p => (dlookup A p.1).isNone).length)
  ∧ (∀ n v, (n, v) ∈ A →
      ExactlyOne3
        (dlookup B n = none ∧ fmtDep n v ∈ (compare A B).missing_in_sbom)
        (∃ sv, dlookup B n = some sv ∧ sv ≠ v ∧
          fmtMismatch n v sv ∈ (compare A B).version_mismatch)
        (dlookup B n = some v ∧ fmtDep n v ∈ (compare A B).same))
  ∧ (∀ n v, (n, v) ∈ B →
      ExactlyOne3
        (dlookup A n = none ∧ fmtDep n v ∈ (compare A B).extra_in_sbom)
        (∃ av, dlookup A n = some av ∧ av ≠ v ∧
          fmtMismatch n av v ∈ (compare A B).version_mismatch)
        (dlookup A n = some v ∧ fmtDep n v ∈ (compare A B).same)) := by
  refine ⟨passA_length B A, passB_length A B, ?_, ?_⟩
  · intro n v hmem
    refine ⟨?_, ?_, ?_, ?_⟩
    · cases hd : dlookup B n with
      | none => exact Or.inl ⟨rfl, passA_mem_missing hmem hd⟩
      | some sv =>
        by_cases hsv : sv = v
        · subst hsv
          exact Or.inr (Or.inr ⟨rfl, passA_mem_same hmem hd⟩)
        · exact Or.inr (Or.inl ⟨sv, rfl, hsv, passA_mem_mismatch hmem hd hsv⟩)
    · rintro ⟨⟨h1, -⟩, ⟨sv, h2, -, -⟩⟩
      simp [h1] at h2
    · rintro ⟨⟨h1, -⟩, ⟨h2, -⟩⟩
      simp [h1] at h2
    · rintro ⟨⟨sv, h1, hne, -⟩, ⟨h2, -⟩⟩
      rw [h1] at h2
      exact hne (Option.some.injEq .. ▸ h2)
  · intro n v hmem
    have hBn : dlookup B n = some v := dlookup_eq_some_of_mem_nodup hB hmem
    refine ⟨?_, ?_, ?_, ?_⟩
    · cases hd : dlookup A n with
      | none => exact Or.inl ⟨rfl, passB_mem_extra hmem hd⟩
      | some av =>
        have hmemA : (n, av) ∈ A := dlookup_mem hd
        by_cases hav : av = v
        · subst hav
          exact Or.inr (Or.inr ⟨rfl, passA_mem_same hmemA hBn⟩)
        · refine Or.inr (Or.inl ⟨av, rfl, hav, ?_⟩)
          exact passA_mem_mismatch hmemA hBn (fun hc => hav hc.symm)
    · rintro ⟨⟨h1, -⟩, ⟨av, h2, -, -⟩⟩
      simp [h1] at h2
    · rintro ⟨⟨h1, -⟩, ⟨h2, -⟩⟩
      simp [h1] at h2
    · rintro ⟨⟨av, h1, hne, -⟩, ⟨h2, -⟩⟩
      rw [h1] at h2
      exact hne (Option.some.injEq .. ▸ h2)

/-- Witness for C1 at the concrete Scenario-A mappings. -/
theorem compare_partition_witness :
    ((compare depsTreeA depsSbomA).missing_in_sbom.length
        + (compare depsTreeA depsSbomA).version_mismatch.length
        + (compare depsTreeA depsSbomA).same.length = depsTreeA.length)
  ∧ ExactlyOne3
      (dlookup depsSbomA "pkgB" = none ∧
        fmtDep "pkgB" "2.0" ∈ (compare depsTreeA depsSbomA).missing_in_sbom)
      (∃ sv, dlookup depsSbomA "pkgB" = some sv ∧ sv ≠ "2.0" ∧
        fmtMismatch "pkgB" "2.0" sv ∈ (compare depsTreeA depsSbomA).version_mismatch)
      (dlookup depsSbomA "pkgB" = some "2.0" ∧
        fmtDep "pkgB" "2.0" ∈ (compare depsTreeA depsSbomA).same) :=
  ⟨(compare_partition depsTreeA depsSbomA (by decide) (by decide)).1,
   (compare_partition depsTreeA depsSbomA (by decide) (by decide)).2.2.1
      "pkgB" "2.0" (by decide)⟩

/-- C5.  `compare` is symmetric under swapping its two arguments:
`missing_in_sbom(A, B) = extra_in_sbom(B, A)` and
`extra_in_sbom(A, B) = missing_in_sbom(B, A)`. -/
theorem compare_swap_symmetry (A B : DepMap) :
    (compare A B).missing_in_sbom = (compare B A).extra_in_sbom
  ∧ (compare A B).extra_in_sbom = (compare B A).missing_in_sbom :=
  ⟨passA_fst_eq_passB B A, (passA_fst_eq_passB A B).symm⟩


theorem foldExcept_error_pred {α β : Type} (f : β → α → Except LoadError β)
    (P : LoadError → Prop) (hf : ∀ d c e, f d c = .error e → P e) :
    ∀ (l : List α) (d : β) (e : LoadError),
      foldExcept f d l = .error e → P e := by
  intro l
  induction l with
  | nil => intro d e h; exact Except.noConfusion h
  | cons c rest ih =>
    intro d e h
    unfold foldExcept at h
    cases hf' : f d c with
    | error e' =>
      simp only [hf'] at h
      injection h with h1
      exact h1 ▸ hf d c e' hf'
    | ok d' =>
      simp only [hf'] at h
      exact ih d' e h

theorem nameStep_error {d : DepMap} {kvs : List (String × Json)}
    {e : LoadError} (h : nameStep d kvs = .error e) : e = .typeCrash := by
  unfold nameStep at h
  split at h
  · exact Except.noConfusion h
  · exact Except.noConfusion h
  · exact Except.noConfusion h
  · split at h <;> exact Except.noConfusion h
  · injection h with h1; exact h1.symm

theorem childStep_error {d : DepMap} {c : Json} {e : LoadError}
    (h : childStep d c = .error e) : e = .typeCrash := by
  unfold childStep at h
  split at h
  · split at h <;> exact Except.noConfusion h
  · injection h with h1; exact h1.symm

theorem processPkg_error {d : DepMap} {pkg : Json} {e : LoadError}
    (h : processPkg d pkg = .error e) : e = .typeCrash := by
  unfold processPkg at h
  split at h
  · rename_i kvs
    cases hn : nameStep d kvs with
    | error e1 =>
      simp only [hn] at h
      injection h with h1
      exact h1 ▸ nameStep_error hn
    | ok d1 =>
      simp only [hn] at h
      split at h
      · exact Except.noConfusion h
      · exact foldExcept_error_pred childStep (· = .typeCrash)
          (fun _ _ _ hc => childStep_error hc) _ _ _ h
      · injection h with h1; exact h1.symm
  · injection h with h1; exact h1.symm

theorem treeDeps_error {data : Json} {e : LoadError}
    (h : treeDepsOfJson data = .error e) :
    e = .unexpectedFormat ∨ e = .typeCrash := by
  unfold treeDepsOfJson at h
  split at h
  · split at h
    · injection h with h1; exact Or.inl h1.symm
    · exact Or.inr (foldExcept_error_pred processPkg (· = .typeCrash)
        (fun _ _ _ hc => processPkg_error hc) _ _ _ h)
    · injection h with h1; exact Or.inr h1.symm
  · injection h with h1; exact Or.inl h1.symm

theorem sbomAddComp_error {d : DepMap} {c : Json} {e : LoadError}
    (h : sbomAddComp d c = .error e) : e = .typeCrash := by
  unfold sbomAddComp at h
  split at h
  · split at h
    · exact Except.noConfusion h
    · exact Except.noConfusion h
    · exact Except.noConfusion h
    · split at h
      · exact Except.noConfusion h
      · split at h
        · exact Except.noConfusion h
        · exact Except.noConfusion h
        · exact Except.noConfusion h
        · split at h <;> exact Except.noConfusion h
        · injection h with h1; exact h1.symm
    · injection h with h1; exact h1.symm
  · injection h with h1; exact h1.symm

theorem load_tree_error_of_nonempty {s : String} {e : LoadError}
    (hne : pyStrip s.data ≠ []) (h : load_dependency_tree s = .error e) :
    e ≠ .emptyInput := by
  unfold load_dependency_tree at h
  rw [if_neg hne] at h
  cases hd : dropUntilBrace (pyStrip s.data) with
  | none =>
    simp only [hd] at h
    injection h with h1
    simp [← h1]
  | some cs =>
    simp only [hd] at h
    cases hj : jsonLoads cs with
    | none =>
      simp only [hj] at h
      injection h with h1
      simp [← h1]
    | some data =>
      simp only [hj] at h
      rcases treeDeps_error h with h1 | h1 <;> simp [h1]

theorem load_sbom_error_of_nonempty {s : String} {e : LoadError}
    (hne : pyStrip s.data ≠ []) (h : load_sbom s = .error e) :
    e ≠ .emptyInput := by
  unfold load_sbom at h
  rw [if_neg hne] at h
  cases hj : jsonLoads (pyStrip s.data) with
  | none =>
    simp only [hj] at h
    injection h with h1
    simp [← h1]
  | some data =>
    simp only [hj] at h
    split at h
    · split at h
      · exact Except.noConfusion h
      · have := foldExcept_error_pred sbomAddComp (· = .typeCrash)
          (fun _ _ _ hc => sbomAddComp_error hc) _ _ _ h
        simp [this]
      · injection h with h1; simp [← h1]
    · injection h with h1; simp [← h1]


theorem foldInsert_append (m : DepMap) (xs ys : List (String × String)) :
    foldInsert m (xs ++ ys) = foldInsert (foldInsert m xs) ys := by
  simp [foldInsert, List.foldl_append]

theorem childFold_ok : ∀ (cs : List Json),
    (∀ c ∈ cs, ∃ s : String, c = .str s) → ∀ d : DepMap,
    foldExcept childStep d cs = .ok (foldInsert d (cs.filterMap childPair)) := by
  intro cs
  induction cs with
  | nil => intro _ d; simp [foldExcept, foldInsert]
  | cons c rest ih =>
    intro h d
    obtain ⟨s, rfl⟩ := h c (List.mem_cons_self _ _)
    have hrest := fun c hc => h c (List.mem_cons_of_mem _ hc)
    by_cases hAt : hasAtChar s
    · simp only [foldExcept, childStep, if_pos hAt, List.filterMap_cons,
        childPair, Option.isSome]
      rw [ih hrest]
      simp [foldInsert, hAt]
    · simp only [foldExcept, childStep, if_neg hAt, List.filterMap_cons,
        childPair]
      rw [ih hrest]

theorem processPkg_ok (deps : DepMap) (pkg : Json) (h : WellFormedPkg pkg) :
    processPkg deps pkg = .ok (foldInsert deps (pkgPairs pkg)) := by
  obtain ⟨kvs, rfl, ⟨s, hname, hs1, hs2⟩, hch⟩ := h
  have hcond : s.data ≠ [] ∧ hasAtChar s = true := ⟨hs1, hs2⟩
  have hns : nameStep deps kvs
      = .ok (dinsert deps (rsplitAt s).1 (rsplitAt s).2) := by
    simp [nameStep, hname, hcond]
  rcases hch with hch | ⟨cs, hch, hcs⟩
  · simp only [processPkg, hns, hch, pkgPairs, hname, if_pos hcond]
    simp [foldInsert]
  · simp only [processPkg, hns, hch, pkgPairs, hname, if_pos hcond]
    rw [childFold_ok cs (fun c hc => (hcs c hc).imp fun s hs => hs.1) _]
    rw [List.singleton_append, show ∀ (p : String × String) ps,
      foldInsert deps (p :: ps) = foldInsert (dinsert deps p.1 p.2) ps
      from fun _ _ => rfl]

theorem pkgsFold_ok : ∀ (pkgs : List Json),
    (∀ p ∈ pkgs, WellFormedPkg p) → ∀ d : DepMap,
    foldExcept processPkg d pkgs = .ok (foldInsert d (pkgs.flatMap pkgPairs)) := by
  intro pkgs
  induction pkgs with
  | nil => intro _ d; simp [foldExcept, foldInsert]
  | cons p rest ih =>
    intro h d
    have hp := h p (List.mem_cons_self _ _)
    have hrest := fun q hq => h q (List.mem_cons_of_mem _ hq)
    simp only [foldExcept, processPkg_ok d p hp, List.flatMap_cons]
    rw [ih hrest, foldInsert_append]

theorem treeDeps_ok (data : Json) (h : WellFormedTree data) :
    treeDepsOfJson data = .ok (foldInsert [] (nodePairs data)) := by
  obtain ⟨kvs, pkgs, rfl, hpk, hall⟩ := h
  simp only [treeDepsOfJson, nodePairs, hpk]
  exact pkgsFold_ok pkgs hall []

theorem dlookup_foldInsert : ∀ (ps : List (String × String)) (m : DepMap)
    (k : String),
    dlookup (foldInsert m ps) k =
      match dlookup ps.reverse k with
      | some v => some v
      | none => dlookup m k := by
  intro ps
  induction ps with
  | nil => intro m k; simp [foldInsert, dlookup]
  | cons p rest ih =>
    intro m k
    obtain ⟨k1, v1⟩ := p
    show dlookup (foldInsert (dinsert m k1 v1) rest) k = _
    rw [ih, List.reverse_cons, dlookup_append]
    cases hr : dlookup rest.reverse k with
    | some v => simp
    | none =>
      simp only []
      rw [dlookup_dinsert]
      by_cases hk : k1 = k <;> simp [dlookup, hk]

theorem dropUntilBrace_some_ne_nil {l cs : List Char}
    (h : dropUntilBrace l = some cs) : l ≠ [] := by
  intro h0
  subst h0
  simp [dropUntilBrace] at h

theorem treeDeps_unexpected {data : Json} (h : packagesKey data = none) :
    treeDepsOfJson data = .error .unexpectedFormat := by
  cases data with
  | obj kvs =>
    simp only [packagesKey] at h
    simp [treeDepsOfJson, h]
  | null => rfl
  | bool b => rfl
  | num l => rfl
  | str s => rfl
  | arr xs => rfl

/-- C6.  `load_dependency_tree` tolerates leading non-JSON log noise by
locating the first opening brace and parsing from there (its result depends
only on the input from that brace on); it fails with a `MalformedInput`
error when no brace is found, when the remainder does not parse as JSON, or
when the top-level `packages` key is absent; and the Scenario-C input
`"INFO: starting\n\x7b\"packages\":[]\x7d"` parses to the empty mapping. -/
theorem load_tree_noise_and_malformed :
    load_dependency_tree logNoiseTree = .ok []
  ∧ (∀ (s : String) (cs : List Char) (data : Json) (deps : DepMap),
      dropUntilBrace (pyStrip s.data) = some cs → jsonLoads cs = some data →
      treeDepsOfJson data = .ok deps → load_dependency_tree s = .ok deps)
  ∧ (∀ s : String, pyStrip s.data ≠ [] →
      dropUntilBrace (pyStrip s.data) = none →
      load_dependency_tree s = .error .noJsonObject
        ∧ LoadError.noJsonObject.isMalformed = true)
  ∧ (∀ (s : String) (cs : List Char),
      dropUntilBrace (pyStrip s.data) = some cs → jsonLoads cs = none →
      load_dependency_tree s = .error .invalidJson
        ∧ LoadError.invalidJson.isMalformed = true)
  ∧ (∀ (s : String) (cs : List Char) (data : Json),
      dropUntilBrace (pyStrip s.data) = some cs → jsonLoads cs = some data →
      packagesKey data = none →
      load_dependency_tree s = .error .unexpectedFormat
        ∧ LoadError.unexpectedFormat.isMalformed = true) := by
  refine ⟨rfl, ?_, ?_, ?_, ?_⟩
  · intro s cs data deps h1 h2 h3
    have hne := dropUntilBrace_some_ne_nil h1
    simp only [load_dependency_tree, if_neg hne, h1, h2]
    exact h3
  · intro s hne h1
    exact ⟨by simp only [load_dependency_tree, if_neg hne, h1], rfl⟩
  · intro s cs h1 h2
    have hne := dropUntilBrace_some_ne_nil h1
    exact ⟨by simp only [load_dependency_tree, if_neg hne, h1, h2], rfl⟩
  · intro s cs data h1 h2 h3
    have hne := dropUntilBrace_some_ne_nil h1
    refine ⟨?_, rfl⟩
    simp only [load_dependency_tree, if_neg hne, h1, h2]
    exact treeDeps_unexpected h3

/-- Witness for C6: the three malformed branches at concrete inputs. -/
theorem load_tree_noise_and_malformed_witness :
    load_dependency_tree "deptree log output" = .error .noJsonObject
  ∧ load_dependency_tree "INFO \x7b oops" = .error .invalidJson
  ∧ load_dependency_tree "noise \x7b\"a\":1\x7d" = .error .unexpectedFormat :=
  ⟨(load_tree_noise_and_malformed.2.2.1 "deptree log output"
      (by decide) (by rfl)).1,
   (load_tree_noise_and_malformed.2.2.2.1 "INFO \x7b oops"
      ("\x7b oops".data) (by rfl) (by rfl)).1,
   (load_tree_noise_and_malformed.2.2.2.2 "noise \x7b\"a\":1\x7d"
      ("\x7b\"a\":1\x7d".data) (.obj [("a", .num "1")])
      (by rfl) (by rfl) (by rfl)).1⟩

/-- C7.  Both loaders fail on input that strips to nothing (in particular a
zero-length file) with `emptyInput`, and on non-empty content every failure
is a different error, so callers can distinguish "nothing to compare" from
"corrupt data". -/
theorem loaders_empty_vs_malformed :
    (∀ s : String, pyStrip s.data = [] →
       load_dependency_tree s = .error .emptyInput
         ∧ load_sbom s = .error .emptyInput)
  ∧ (∀ (s : String) (e : LoadError), pyStrip s.data ≠ [] →
       load_dependency_tree s = .error e → e ≠ .emptyInput)
  ∧ (∀ (s : String) (e : LoadError), pyStrip s.data ≠ [] →
       load_sbom s = .error e → e ≠ .emptyInput)
  ∧ LoadError.emptyInput.isMalformed = false := by
  refine ⟨?_, ?_, ?_, rfl⟩
  · intro s h
    exact ⟨by simp [load_dependency_tree, h], by simp [load_sbom, h]⟩
  · intro s e hne h
    exact load_tree_error_of_nonempty hne h
  · intro s e hne h
    exact load_sbom_error_of_nonempty hne h

/-- Witness for C7: the zero-length file and a malformed non-empty file. -/
theorem loaders_empty_vs_malformed_witness :
    (load_dependency_tree "" = .error .emptyInput
      ∧ load_sbom "" = .error .emptyInput)
  ∧ LoadError.noJsonObject ≠ LoadError.emptyInput :=
  ⟨loaders_empty_vs_malformed.1 "" (by decide),
   loaders_empty_vs_malformed.2.1 "not json" .noJsonObject
      (by decide) (by rfl)⟩

/-- C8.  For every successfully parsed tree document (an object whose
`packages` list holds package nodes carrying `name@version` identifiers and
child identifiers of the same shape), every package node and every one of
its children contributes its name → version pair to the resulting mapping,
and on duplicate names the mapping holds the value of the last occurrence
(lookup agrees with lookup in the reversed contribution list). -/
theorem tree_loader_contributes (data : Json) (h : WellFormedTree data) :
    ∃ deps, treeDepsOfJson data = .ok deps
      ∧ (∀ n v, (n, v) ∈ nodePairs data → (dlookup deps n).isSome)
      ∧ (∀ n, dlookup deps n = dlookup (nodePairs data).reverse n) := by
  refine ⟨foldInsert [] (nodePairs data), treeDeps_ok data h, ?_, ?_⟩
  · intro n v hmem
    rw [dlookup_foldInsert]
    have hsome := dlookup_isSome_of_mem (List.mem_reverse.mpr hmem)
    cases hr : dlookup (nodePairs data).reverse n with
    | none => rw [hr] at hsome; simp at hsome
    | some v' => simp
  · intro n
    rw [dlookup_foldInsert]
    cases dlookup (nodePairs data).reverse n <;> simp [dlookup]

/-- Witness for C8 at a concrete document with a duplicated package name. -/
theorem tree_loader_contributes_witness :
    ∃ deps, treeDepsOfJson treeDocA = .ok deps
      ∧ (∀ n v, (n, v) ∈ nodePairs treeDocA → (dlookup deps n).isSome)
      ∧ (∀ n, dlookup deps n = dlookup (nodePairs treeDocA).reverse n) := by
  refine tree_loader_contributes treeDocA
    ⟨[("packages", .arr [.obj [("name", .str "pkgA@1.0"),
        ("children", .arr [.str "pkgB@2.0", .str "pkgA@1.1"])]])],
     [.obj [("name", .str "pkgA@1.0"),
        ("children", .arr [.str "pkgB@2.0", .str "pkgA@1.1"])]],
     rfl, rfl, ?_⟩
  intro p hp
  rw [List.mem_singleton] at hp
  subst hp
  refine ⟨[("name", .str "pkgA@1.0"),
        ("children", .arr [.str "pkgB@2.0", .str "pkgA@1.1"])], rfl,
     ⟨"pkgA@1.0", rfl, by decide, by decide⟩,
     Or.inr ⟨[.str "pkgB@2.0", .str "pkgA@1.1"], rfl, ?_⟩⟩
  intro c hc
  rcases List.mem_cons.mp hc with rfl | hc2
  · exact ⟨"pkgB@2.0", rfl, by decide⟩
  · rw [List.mem_singleton] at hc2
    subst hc2
    exact ⟨"pkgA@1.1", rfl, by decide⟩

/-- C2.  Submitting while a record with the same id is pending or running
fails with `Conflict` and leaves the registry unchanged; submitting when
the id is absent or its record is terminal (completed or failed) succeeds,
overwrites the registry record with a fresh pending record, and returns
status `pending`. -/
theorem scan_repo_submit (jobs : Registry) (id : String) :
    (∀ r, dlookup jobs id = some r →
      (r.status = .pending ∨ r.status = .running) →
      scan_repo jobs id = (jobs, .error .conflict))
  ∧ ((∀ r, dlookup jobs id = some r →
        r.status = .completed ∨ r.status = .failed) →
      scan_repo jobs id
        = (dinsert jobs id freshJobRecord,
           .ok ⟨id, "pending", none, none, none, none, none, none⟩)
        ∧ dlookup (scan_repo jobs id).1 id = some freshJobRecord) := by
  constructor
  · intro r hr hact
    simp [scan_repo, hr, hact]
  · intro hterm
    cases hl : dlookup jobs id with
    | none =>
      refine ⟨by simp [scan_repo, hl], ?_⟩
      simp [scan_repo, hl, dlookup_dinsert]
    | some r =>
      have hnact : ¬(r.status = .pending ∨ r.status = .running) := by
        rcases hterm r hl with h | h <;> simp [h]
      refine ⟨by simp [scan_repo, hl, hnact], ?_⟩
      simp [scan_repo, hl, hnact, dlookup_dinsert]

/-- Witness for C2: a running id is rejected, a fresh id is admitted. -/
theorem scan_repo_submit_witness :
    scan_repo [("j1", runningRec)] "j1"
      = ([("j1", runningRec)], .error .conflict)
  ∧ scan_repo [] "j1"
      = ([("j1", freshJobRecord)],
         .ok ⟨"j1", "pending", none, none, none, none, none, none⟩) := by
  constructor
  · exact (scan_repo_submit [("j1", runningRec)] "j1").1 runningRec rfl
      (Or.inr rfl)
  · exact ((scan_repo_submit [] "j1").2
      (fun r hr => by simp [dlookup] at hr)).1

/-- C3.  For an id absent from the in-memory registry, `get_report` falls
back to the durable directory: a persisted report yields `completed` with
that report, else a persisted error record yields `failed` with the trace,
else 404 — in particular an id never submitted and with no durable record
yields `NotFound`. -/
theorem get_report_durable_fallback (jobs : Registry) (disk : Disk)
    (id : String) (h : dlookup jobs id = none) :
    (∀ rep eo, dlookup disk id = some ⟨some rep, eo⟩ →
      get_report jobs disk id
        = .ok ⟨id, "completed", reportLanguage rep, reportManager rep,
               none, none, none, some rep⟩)
  ∧ (∀ e, dlookup disk id = some ⟨none, some e⟩ →
      get_report jobs disk id
        = .ok ⟨id, "failed", none, none, none, none, some e, none⟩)
  ∧ ((dlookup disk id = none ∨ dlookup disk id = some ⟨none, none⟩) →
      get_report jobs disk id = .error .notFound) := by
  refine ⟨?_, ?_, ?_⟩
  · intro rep eo hd
    simp [get_report, h, hd]
  · intro e hd
    simp [get_report, h, hd]
  · rintro (hd | hd) <;> simp [get_report, h, hd, DiskEntry.empty]

/-- Witness for C3: completed, failed and not-found fallbacks at concrete
states. -/
theorem get_report_durable_fallback_witness :
    get_report [] [("j1", ⟨some repDoc, none⟩)] "j1"
      = .ok ⟨"j1", "completed", some "Go", some "go.mod",
             none, none, none, some repDoc⟩
  ∧ get_report [] [("j2", ⟨none, some "Traceback"⟩)] "j2"
      = .ok ⟨"j2", "failed", none, none, none, none, some "Traceback", none⟩
  ∧ get_report [] [] "ghost" = .error .notFound := by
  refine ⟨?_, ?_, ?_⟩
  · exact (get_report_durable_fallback [] [("j1", ⟨some repDoc, none⟩)]
      "j1" rfl).1 repDoc none rfl
  · exact (get_report_durable_fallback [] [("j2", ⟨none, some "Traceback"⟩)]
      "j2" rfl).2.1 "Traceback" rfl
  · exact (get_report_durable_fallback [] [] "ghost" rfl).2.2 (Or.inl rfl)

/-- C10.  In the durable-lookup fallback of `get_report`, a persisted
report takes precedence over a persisted error record: when both exist the
poll returns `completed` with the report. -/
theorem get_report_report_precedence (jobs : Registry) (disk : Disk)
    (id : String) (rep : Json) (err : String)
    (h : dlookup jobs id = none)
    (hd : dlookup disk id = some ⟨some rep, some err⟩) :
    get_report jobs disk id
      = .ok ⟨id, "completed", reportLanguage rep, reportManager rep,
             none, none, none, some rep⟩ := by
  simp [get_report, h, hd]

/-- Witness for C10 at a directory holding both files. -/
theorem get_report_report_precedence_witness :
    get_report [] [("j1", ⟨some repDoc, some "Traceback"⟩)] "j1"
      = .ok ⟨"j1", "completed", some "Go", some "go.mod",
             none, none, none, some repDoc⟩ :=
  get_report_report_precedence [] [("j1", ⟨some repDoc, some "Traceback"⟩)]
    "j1" repDoc "Traceback" rfl rfl

/-- C4.  Deleting an id whose record is pending or running fails with
`InvalidState` and changes nothing; deleting a terminal id removes the
in-memory record and the whole durable job directory, so a subsequent poll
finds the id in neither and yields `NotFound`. -/
theorem delete_job_spec (jobs : Registry) (disk : Disk) (id : String) :
    (∀ r, dlookup jobs id = some r →
      (r.status = .pending ∨ r.status = .running) →
      delete_job jobs disk id = (jobs, disk, .error .invalidState))
  ∧ (∀ r, dlookup jobs id = some r →
      (r.status = .completed ∨ r.status = .failed) →
      delete_job jobs disk id = (dremove jobs id, dremove disk id, .ok true)
        ∧ dlookup (dremove jobs id) id = none
        ∧ dlookup (dremove disk id) id = none
        ∧ get_report (dremove jobs id) (dremove disk id) id
            = .error .notFound) := by
  constructor
  · intro r hr hact
    have hact2 : r.status = .running ∨ r.status = .pending := hact.symm
    simp [delete_job, hr, hact2]
  · intro r hr hterm
    have hnact : ¬(r.status = .running ∨ r.status = .pending) := by
      rcases hterm with h | h <;> simp [h]
    refine ⟨by simp [delete_job, hr, hnact], dlookup_dremove_self _ _,
      dlookup_dremove_self _ _, ?_⟩
    simp [get_report, dlookup_dremove_self, DiskEntry.empty]

/-- Witness for C4: a running id is protected, a completed id is removed
and subsequently not found. -/
theorem delete_job_spec_witness :
    delete_job [("j1", runningRec)] [] "j1"
      = ([("j1", runningRec)], [], .error .invalidState)
  ∧ delete_job [("j2", doneRec)] [("j2", ⟨some repDoc, none⟩)] "j2"
      = ([], [], .ok true)
  ∧ get_report ([] : Registry) ([] : Disk) "j2" = .error .notFound := by
  have h2 := (delete_job_spec [("j2", doneRec)]
    [("j2", ⟨some repDoc, none⟩)] "j2").2 doneRec rfl (Or.inl rfl)
  exact ⟨(delete_job_spec [("j1", runningRec)] [] "j1").1 runningRec rfl
      (Or.inr rfl),
    h2.1, h2.2.2.2⟩

/-- Counterexample to C9 as stated: at a concrete job, `run_scan_pipeline`
performs cwd syscalls (its event trace is non-empty: it chdirs into the job
directory before any stage runs and the Go flow reads `os.getcwd()`), and
the stages execute with a process cwd different from the initial one — so
it is false that no stage call reads or changes the process-wide current
directory. -/
theorem run_scan_pipeline_cwd_cex :
    ¬ ((run_scan_pipeline_cwd "Go" ⟨"/srv/app"⟩ "/srv/app/jobs/j1").events
          = []
       ∧ (run_scan_pipeline_cwd "Go" ⟨"/srv/app"⟩ "/srv/app/jobs/j1").stageCwd
          = "/srv/app") := by
  decide

/-- C9 (amended).  Stage execution in `run_scan_pipeline` does depend on
mutating the process-wide current working directory: the pipeline enters
`job_dir` with `os.chdir` (via `WorkDir`) before any stage runs, the stages
execute with that mutated cwd, the Go flow reads the mutated cwd via
`os.getcwd()` to derive its stage paths, and the original cwd is restored
only when the `WorkDir` context exits. -/
theorem run_scan_pipeline_cwd_spec (language cwd0 job_dir : String) :
    (run_scan_pipeline_cwd language ⟨cwd0⟩ job_dir).events.head?
        = some (.chdir job_dir)
  ∧ (run_scan_pipeline_cwd language ⟨cwd0⟩ job_dir).stageCwd = job_dir
  ∧ (language = "Go" →
      (run_scan_pipeline_cwd language ⟨cwd0⟩ job_dir).goCurrentFolder
        = some job_dir)
  ∧ (run_scan_pipeline_cwd language ⟨cwd0⟩ job_dir).finalCwd = cwd0
  ∧ (run_scan_pipeline_cwd language ⟨cwd0⟩ job_dir).events.getLast?
        = some (.chdir cwd0) := by
  refine ⟨rfl, rfl, ?_, rfl, ?_⟩
  · intro h
    simp [run_scan_pipeline_cwd, h, WorkDir.init, WorkDir.enter, os_chdir,
      os_getcwd]
  · by_cases h : language = "Go" <;>
      simp [run_scan_pipeline_cwd, h, WorkDir.init, WorkDir.enter,
        WorkDir.exitCtx, os_chdir, os_getcwd]

/-- Witness for the amended C9 at a concrete Go job. -/
theorem run_scan_pipeline_cwd_spec_witness :
    (run_scan_pipeline_cwd "Go" ⟨"/srv/app"⟩ "/srv/app/jobs/j1").goCurrentFolder
        = some "/srv/app/jobs/j1"
  ∧ (run_scan_pipeline_cwd "Go" ⟨"/srv/app"⟩ "/srv/app/jobs/j1").finalCwd
        = "/srv/app" :=
  ⟨(run_scan_pipeline_cwd_spec "Go" "/srv/app" "/srv/app/jobs/j1").2.2.1 rfl,
   (run_scan_pipeline_cwd_spec "Go" "/srv/app" "/srv/app/jobs/j1").2.2.2.1⟩
